import Mathlib

/-!
# PIanoAI: note playback and MIDI device selection

A shallow embedding of the two Go sources of the repository:

* `src/piano.go` (package `main`): `Piano.Init`, `Piano.PlayNote`;
* `src/piano/piano.go` (package `piano`): `New`, `Piano.PlayNotes`.

The MIDI driver (`portmidi`) is an external collaborator.  It is represented by
an explicit device state: every stream carries the outcome the device gives to
its n-th write, together with the log of what was attempted and what was
written.  A result of type `Option` stands for "the call returns normally":
`none` is a call that blocks forever on the mutex or stops in a run-time panic.
The `float64` division of `PlayNote` is the IEEE 754 one: the exact quotient
rounded to the nearest `float64`.
-/

/-! ## The external driver -/

namespace portmidi

/-- An error value handed back by the driver. -/
structure PmError where
  code : Int
  deriving DecidableEq, Repr

/-- The three arguments of one `WriteShort` call. -/
structure Msg where
  status : Int
  data1 : Int
  data2 : Int
  deriving DecidableEq, Repr

/-- The two capability flags of `portmidi.DeviceInfo` (the strings `Interface`
and `Name` are only ever logged). -/
structure DeviceInfo where
  IsInputAvailable : Bool
  IsOutputAvailable : Bool
  deriving DecidableEq, Repr

/-- An open output stream.  `fail n m` is what the device answers to the write
of `m` when `n` writes were attempted before it (`none` is success).
`attempted` logs every write that reached the device, `written` the ones that
succeeded. -/
structure Stream where
  fail : Nat → Msg → Option PmError
  attempted : List Msg
  written : List Msg

/-- The method `Stream.WriteShort(status, data1, data2)`: one write, no retry. -/
def Stream.WriteShort (s : Stream) (status data1 data2 : Int) : Stream × Option PmError :=
  match s.fail s.attempted.length ⟨status, data1, data2⟩ with
  | none =>
    ({ s with attempted := s.attempted ++ [⟨status, data1, data2⟩],
              written := s.written ++ [⟨status, data1, data2⟩] }, none)
  | some e =>
    ({ s with attempted := s.attempted ++ [⟨status, data1, data2⟩] }, some e)

/-- An open input stream, known by the device it was opened on. -/
structure InputStream where
  device : Int
  deriving DecidableEq, Repr

/-- The driver as `New` and `Init` see it: the result of `Initialize`, the
devices `Info(0)`, ..., `Info(CountDevices()-1)`, and the results of
`NewOutputStream` and `NewInputStream` on a device identifier. -/
structure Driver where
  initResult : Option PmError
  devices : List DeviceInfo
  newOutputStream : Int → Option Stream × Option PmError
  newInputStream : Int → Option InputStream × Option PmError

end portmidi

/-- What one call does that an observer can see, in the order it happens: the
mutex operations, the device writes with their result, and the sleeps with the
`time.Duration` argument (nanoseconds). -/
inductive Event where
  | lock : Event
  | unlock : Event
  | write : portmidi.Msg → Option portmidi.PmError → Event
  | sleep : Int → Event
  deriving DecidableEq, Repr

/-- True on device writes. -/
def Event.isWrite : Event → Bool
  | Event.write _ _ => true
  | _ => false

/-! ## Arithmetic on `float64`

A finite `float64` is represented by the rational number it denotes; `none`
stands for an infinity or a NaN.  An operation gives the exact result rounded
to the nearest `float64`, ties to the even significand (IEEE 754 binary64). -/

namespace float64

/-- The exponent of the unit in the last place at `x`: 52 below the binade of
`x`, and -1074 throughout the subnormal range. -/
def ulpExp (x : ℚ) : Int := max (Int.log 2 |x|) (-1022) - 52

/-- The integer nearest to `y`, the even one of the two when `y` is half way. -/
def roundHalfEven (y : ℚ) : Int :=
  if y - ⌊y⌋ < 1 / 2 then ⌊y⌋
  else if 1 / 2 < y - ⌊y⌋ then ⌊y⌋ + 1
  else if ⌊y⌋ % 2 = 0 then ⌊y⌋ else ⌊y⌋ + 1

/-- The `float64` nearest to the exact value `x`; `none` when the rounded value
leaves the finite range (overflow to an infinity). -/
def nearest (x : ℚ) : Option ℚ :=
  if |(roundHalfEven (x / 2 ^ ulpExp x) : ℚ) * 2 ^ ulpExp x| < 2 ^ (1024 : ℕ) then
    some ((roundHalfEven (x / 2 ^ ulpExp x) : ℚ) * 2 ^ ulpExp x)
  else none

/-- The quotient `a / b` of two finite `float64` values: the exact quotient
rounded to the nearest `float64`; a quotient by zero is an infinity or a NaN. -/
def div (a b : ℚ) : Option ℚ := if b = 0 then none else nearest (a / b)

/-- True when the rational `x` is the value of a finite `float64`: rounding
leaves it as it is. -/
def isFloat64 (x : ℚ) : Bool := decide (nearest x = some x)

end float64

/-! ## Package `time` and the float-to-integer conversion -/

namespace time

/-- The constant `time.Minute`, in nanoseconds. -/
def Minute : Int := 60000000000

/-- Smallest `int64`. -/
def minInt64 : Int := -9223372036854775808

/-- Largest `int64`. -/
def maxInt64 : Int := 9223372036854775807

/-- Two's-complement wrap-around of `int64` arithmetic. -/
def wrapInt64 (x : Int) : Int := (x + 9223372036854775808) % 18446744073709551616 - 9223372036854775808

/-- Drops the fractional part (rounds toward zero). -/
def trunc (x : ℚ) : Int := Int.tdiv x.num x.den

/-- The conversion `time.Duration(x)` of a float64, `none` standing for an
infinity or a NaN: the fractional part is dropped.  Where the result does not
fit `int64` (or `x` is no number) Go leaves the value to the implementation;
the amd64 value, the smallest `int64`, is used here. -/
def DurationOfFloat : Option ℚ → Int
  | none => minInt64
  | some x => if minInt64 ≤ trunc x ∧ trunc x ≤ maxInt64 then trunc x else minInt64

/-- The `int64` product of two durations. -/
def mulDuration (a b : Int) : Int := wrapInt64 (a * b)

/-- How long `time.Sleep(d)` pauses at least: a negative or zero duration
returns at once. -/
def pause (d : Int) : Int := max d 0

end time

/-! ## Package `music` -/

namespace music

/-- Modelled from the spec: the type `Note` of package `music` is declared
outside the given sources.  A pre-split event has a pitch, a velocity and the
flag `On` telling a note-on from a note-off; `PlayNotes` reads exactly these
three fields. -/
structure Note where
  Pitch : Int
  Velocity : Int
  On : Bool
  deriving DecidableEq, Repr

end music

/-! ## Package `piano` (`src/piano/piano.go`) -/

namespace piano

/-- The struct `Piano`.  `locked` is the state of the embedded `sync.Mutex`;
`trace` is a ghost field recording the observable events. -/
structure Piano where
  InputDevice : Int
  OutputDevice : Int
  outputStream : Option portmidi.Stream
  InputStream : Option portmidi.InputStream
  locked : Bool
  trace : List Event

/-- The value `new(Piano)`: every field zero, the mutex free. -/
def Piano.zero : Piano :=
  { InputDevice := 0, OutputDevice := 0, outputStream := none, InputStream := none,
    locked := false, trace := [] }

/-- The loop `for i := 0; i < numDevices; i++` of `New`, entered at index `i`
with the devices from `i` on still to visit. -/
def deviceLoop : List portmidi.DeviceInfo → Nat → Piano → Piano
  | [], _, p => p
  | deviceInfo :: rest, i, p =>
    if deviceInfo.IsOutputAvailable then
      deviceLoop rest (i + 1) { p with OutputDevice := (i : Int) }
    else
      deviceLoop rest (i + 1) { p with InputDevice := (i : Int) }

/-- The statement `if len(ports) == 2 { ... }`. -/
def applyPorts (p : Piano) (ports : List Int) : Piano :=
  match ports with
  | [a, b] => { p with InputDevice := a, OutputDevice := b }
  | _ => p

/-- The function `New(ports ...int) (p *Piano, err error)`. -/
def New (drv : portmidi.Driver) (ports : List Int) : Piano × Option portmidi.PmError :=
  match drv.initResult with
  | some e => (Piano.zero, some e)
  | none =>
    let p1 := applyPorts (deviceLoop drv.devices 0 Piano.zero) ports
    match drv.newOutputStream p1.OutputDevice with
    | (os, some e) => ({ p1 with outputStream := os }, some e)
    | (os, none) =>
      match drv.newInputStream p1.InputDevice with
      | (is, err) => ({ p1 with outputStream := os, InputStream := is }, err)

/-- The method `p.Lock()`: a held mutex never lets the caller through. -/
def Piano.Lock (p : Piano) : Option Piano :=
  if p.locked then none
  else some { p with locked := true, trace := p.trace ++ [Event.lock] }

/-- The method `p.Unlock()`: unlocking a free mutex is a fatal error. -/
def Piano.Unlock (p : Piano) : Option Piano :=
  if p.locked then some { p with locked := false, trace := p.trace ++ [Event.unlock] }
  else none

/-- The call `p.outputStream.WriteShort(...)`; a nil stream panics. -/
def Piano.writeShort (p : Piano) (status data1 data2 : Int) :
    Option (Piano × Option portmidi.PmError) :=
  match p.outputStream with
  | none => none
  | some s =>
    match s.WriteShort status data1 data2 with
    | (s1, err) =>
      some ({ p with outputStream := some s1,
                     trace := p.trace ++ [Event.write ⟨status, data1, data2⟩ err] }, err)

/-- The loop `for _, note := range notes` of `PlayNotes`, with its two early
returns.  The named result `err` is nil whenever the loop goes on. -/
def Piano.playLoop : Piano → List music.Note → Option (Piano × Option portmidi.PmError)
  | p, [] => some (p, none)
  | p, note :: rest =>
    if note.On then
      match p.writeShort 0x90 note.Pitch note.Velocity with
      | none => none
      | some (p1, some e) => some (p1, some e)
      | some (p1, none) => Piano.playLoop p1 rest
    else
      match p.writeShort 0x80 note.Pitch note.Velocity with
      | none => none
      | some (p1, some e) => some (p1, some e)
      | some (p1, none) => Piano.playLoop p1 rest

/-- The method `PlayNotes(notes []music.Note, bpm int) (err error)`: lock,
run the loop, and unlock on the way out (`defer p.Unlock()`). -/
def Piano.PlayNotes (p : Piano) (notes : List music.Note) (_bpm : Int) :
    Option (Piano × Option portmidi.PmError) :=
  match p.Lock with
  | none => none
  | some p1 =>
    match p1.playLoop notes with
    | none => none
    | some (p2, err) =>
      match p2.Unlock with
      | none => none
      | some p3 => some (p3, err)

/-- The message `PlayNotes` sends for one event. -/
def toMsg (note : music.Note) : portmidi.Msg :=
  ⟨if note.On then 0x90 else 0x80, note.Pitch, note.Velocity⟩

end piano

/-! ## Package `main` (`src/piano.go`) -/

namespace Main

/-- Modelled from the spec: the type `Note` of package `main` is declared
outside the given sources.  A note has a pitch, a velocity and a duration in
beats; the duration is a finite `float64` (it is divided by the `float64`
tempo), represented by the rational it denotes. -/
structure Note where
  Pitch : Int
  Velocity : Int
  Duration : ℚ

/-- The struct `Piano` of package `main` (no mutex); `trace` is a ghost field
recording the observable events. -/
structure Piano where
  InputDevice : Int
  OutputDevice : Int
  outputStream : Option portmidi.Stream
  inputStream : Option portmidi.InputStream
  trace : List Event

/-- The loop `for i := 0; i < numDevices; i++` of `Init`. -/
def deviceLoop : List portmidi.DeviceInfo → Nat → Piano → Piano
  | [], _, p => p
  | deviceInfo :: rest, i, p =>
    if deviceInfo.IsOutputAvailable then
      deviceLoop rest (i + 1) { p with OutputDevice := (i : Int) }
    else
      deviceLoop rest (i + 1) { p with InputDevice := (i : Int) }

/-- The statement `if len(ports) == 2 { ... }`. -/
def applyPorts (p : Piano) (ports : List Int) : Piano :=
  match ports with
  | [a, b] => { p with InputDevice := a, OutputDevice := b }
  | _ => p

/-- The method `Init(ports ...int) (err error)` on an existing `Piano`. -/
def Piano.Init (p : Piano) (drv : portmidi.Driver) (ports : List Int) :
    Piano × Option portmidi.PmError :=
  match drv.initResult with
  | some e => (p, some e)
  | none =>
    let p1 := applyPorts (deviceLoop drv.devices 0 p) ports
    match drv.newOutputStream p1.OutputDevice with
    | (os, some e) => ({ p1 with outputStream := os }, some e)
    | (os, none) =>
      match drv.newInputStream p1.InputDevice with
      | (is, err) => ({ p1 with outputStream := os, inputStream := is }, err)

/-- The call `p.outputStream.WriteShort(...)`; a nil stream panics. -/
def Piano.writeShort (p : Piano) (status data1 data2 : Int) :
    Option (Piano × Option portmidi.PmError) :=
  match p.outputStream with
  | none => none
  | some s =>
    match s.WriteShort status data1 data2 with
    | (s1, err) =>
      some ({ p with outputStream := some s1,
                     trace := p.trace ++ [Event.write ⟨status, data1, data2⟩ err] }, err)

/-- The call `time.Sleep(d)`. -/
def Piano.Sleep (p : Piano) (d : Int) : Piano :=
  { p with trace := p.trace ++ [Event.sleep d] }

/-- The argument of the sleep in `PlayNote`:
`time.Duration(note.Duration/bpm) * time.Minute`. -/
def holdDuration (duration bpm : ℚ) : Int :=
  time.mulDuration (time.DurationOfFloat (float64.div duration bpm)) time.Minute

/-- The method `PlayNote(note Note, bpm float64) (err error)`.  The result of
the first write is only logged; `err` is assigned again by the second write. -/
def Piano.PlayNote (p : Piano) (note : Note) (bpm : ℚ) :
    Option (Piano × Option portmidi.PmError) :=
  match p.writeShort 0x90 note.Pitch note.Velocity with
  | none => none
  | some (p1, _) =>
    (p1.Sleep (holdDuration note.Duration bpm)).writeShort 0x80 note.Pitch note.Velocity

end Main

/-! ## Specification-side definitions -/

/-- The index of the last element of the list that satisfies `f`, counting
from `i` at its head; `none` when no element does. -/
def lastIndexFrom {α : Type} (f : α → Bool) : List α → Nat → Option Nat
  | [], _ => none
  | x :: rest, i =>
    match lastIndexFrom f rest (i + 1) with
    | some j => some j
    | none => if f x then some i else none

/-- The index of the last element of the list that satisfies `f`. -/
def lastIndex {α : Type} (f : α → Bool) (l : List α) : Option Nat := lastIndexFrom f l 0

/-- The choice the enumeration makes for a device field: the index found, or
the value the field had before when none was found. -/
def selected (prior : Int) : Option Nat → Int
  | some i => (i : Int)
  | none => prior

/-- The trace entry of a successful write of one pre-split event. -/
def okWrite (note : music.Note) : Event := Event.write (piano.toMsg note) none

/-- The message of a device write, nothing for the other events. -/
def Event.msg : Event → Option portmidi.Msg
  | Event.write m _ => some m
  | _ => none

/-- The note-on message of a note of package `main`. -/
def Main.onMsg (note : Main.Note) : portmidi.Msg := ⟨0x90, note.Pitch, note.Velocity⟩

/-- The note-off message of a note of package `main`. -/
def Main.offMsg (note : Main.Note) : portmidi.Msg := ⟨0x80, note.Pitch, note.Velocity⟩

/-! ## Concrete devices and inputs -/

/-- A fresh stream whose device accepts every write. -/
def okStream : portmidi.Stream :=
  { fail := fun _ _ => none, attempted := [], written := [] }

/-- A fresh stream whose device refuses the write number `k`, counted from 0,
with error code 7, and accepts every other write. -/
def failAt (k : Nat) : portmidi.Stream :=
  { fail := fun n _ => if n = k then some ⟨7⟩ else none, attempted := [], written := [] }

/-- A `piano.Piano` with a free mutex on the given open stream. -/
def piano.onStream (s : portmidi.Stream) : piano.Piano :=
  { InputDevice := 0, OutputDevice := 1, outputStream := some s, InputStream := none,
    locked := false, trace := [] }

/-- A `main` `Piano` on the given open stream. -/
def Main.onStream (s : portmidi.Stream) : Main.Piano :=
  { InputDevice := 0, OutputDevice := 1, outputStream := some s, inputStream := none,
    trace := [] }

/-- The `float64` nearest to one tenth, which is what the literal `0.1` denotes:
3602879701896397 / 2^55, slightly more than one tenth. -/
def oneTenth : ℚ := 3602879701896397 / 36028797018963968

/-- The four pre-split events of the example: pitch 60 on and off, then
pitch 64 on and off, all at velocity 100. -/
def fourEvents : List music.Note :=
  [⟨60, 100, true⟩, ⟨60, 100, false⟩, ⟨64, 100, true⟩, ⟨64, 100, false⟩]

/-- A `main` `Piano` with every field zero, as a fresh `Piano{}` has them. -/
def Main.Piano.zero : Main.Piano :=
  { InputDevice := 0, OutputDevice := 0, outputStream := none, inputStream := none, trace := [] }

/-- A driver that starts, lists the given devices and opens every stream. -/
def driverWith (devices : List portmidi.DeviceInfo) : portmidi.Driver :=
  { initResult := none, devices := devices,
    newOutputStream := fun _ => (some okStream, none),
    newInputStream := fun d => (some ⟨d⟩, none) }

/-- Three devices as portmidi lists them, each one an input or an output:
input, output, input. -/
def threeDevices : List portmidi.DeviceInfo :=
  [⟨true, false⟩, ⟨false, true⟩, ⟨true, false⟩]

/-- Two devices, the second one flagged for input and for output. -/
def twoWayDevices : List portmidi.DeviceInfo :=
  [⟨true, false⟩, ⟨true, true⟩]

/-! ## Behaviour of `piano.Piano.PlayNotes` -/

/-- A write through a `Piano` whose output stream is open reaches the device
and is recorded in the trace with its result. -/
theorem piano.writeShort_open (p : piano.Piano) (s : portmidi.Stream)
    (hopen : p.outputStream = some s) (status data1 data2 : Int) :
    p.writeShort status data1 data2 =
      some ({ p with outputStream := some (s.WriteShort status data1 data2).1,
                     trace := p.trace ++
                       [Event.write ⟨status, data1, data2⟩ (s.WriteShort status data1 data2).2] },
            (s.WriteShort status data1 data2).2) := by
  simp [piano.Piano.writeShort, hopen]

/-- One step of the loop: both branches send the message of the event and
differ in the status byte only. -/
theorem piano.playLoop_cons (p : piano.Piano) (note : music.Note) (rest : List music.Note) :
    p.playLoop (note :: rest) =
      match p.writeShort (piano.toMsg note).status note.Pitch note.Velocity with
      | none => none
      | some (p1, some e) => some (p1, some e)
      | some (p1, none) => p1.playLoop rest := by
  cases hon : note.On <;> simp [piano.Piano.playLoop, piano.toMsg, hon]

/-- One step of the loop on an open stream whose device accepts the write. -/
theorem piano.playLoop_cons_ok (p : piano.Piano) (s : portmidi.Stream)
    (note : music.Note) (rest : List music.Note) (hopen : p.outputStream = some s)
    (hok : s.fail s.attempted.length (piano.toMsg note) = none) :
    p.playLoop (note :: rest) =
      piano.Piano.playLoop
        { p with outputStream := some { s with attempted := s.attempted ++ [piano.toMsg note],
                                               written := s.written ++ [piano.toMsg note] },
                 trace := p.trace ++ [okWrite note] } rest := by
  have hw : s.WriteShort (piano.toMsg note).status note.Pitch note.Velocity =
      ({ s with attempted := s.attempted ++ [piano.toMsg note],
                written := s.written ++ [piano.toMsg note] }, none) := by
    have hm : (⟨(piano.toMsg note).status, note.Pitch, note.Velocity⟩ : portmidi.Msg) =
        piano.toMsg note := rfl
    simp only [portmidi.Stream.WriteShort, hm, hok]
  rw [piano.playLoop_cons, piano.writeShort_open p s hopen, hw]
  rfl

/-- One step of the loop on an open stream whose device refuses the write. -/
theorem piano.playLoop_cons_fail (p : piano.Piano) (s : portmidi.Stream)
    (note : music.Note) (rest : List music.Note) (e : portmidi.PmError)
    (hopen : p.outputStream = some s)
    (hfail : s.fail s.attempted.length (piano.toMsg note) = some e) :
    p.playLoop (note :: rest) =
      some ({ p with outputStream := some { s with attempted := s.attempted ++ [piano.toMsg note] },
                     trace := p.trace ++ [Event.write (piano.toMsg note) (some e)] }, some e) := by
  have hw : s.WriteShort (piano.toMsg note).status note.Pitch note.Velocity =
      ({ s with attempted := s.attempted ++ [piano.toMsg note] }, some e) := by
    have hm : (⟨(piano.toMsg note).status, note.Pitch, note.Velocity⟩ : portmidi.Msg) =
        piano.toMsg note := rfl
    simp only [portmidi.Stream.WriteShort, hm, hfail]
  rw [piano.playLoop_cons, piano.writeShort_open p s hopen, hw]
  rfl

/-- A prefix of events that the device accepts is written in order, and the
loop goes on with the rest. -/
theorem piano.playLoop_prefix (pre rest : List music.Note) :
    ∀ (p : piano.Piano) (s : portmidi.Stream), p.outputStream = some s →
      (∀ j (hj : j < pre.length),
        s.fail (s.attempted.length + j) (piano.toMsg (pre.get ⟨j, hj⟩)) = none) →
      ∃ (p1 : piano.Piano) (s1 : portmidi.Stream),
        p.playLoop (pre ++ rest) = p1.playLoop rest ∧ p1.outputStream = some s1 ∧
        s1.fail = s.fail ∧
        s1.attempted = s.attempted ++ pre.map piano.toMsg ∧
        s1.written = s.written ++ pre.map piano.toMsg ∧
        p1.trace = p.trace ++ pre.map okWrite ∧ p1.locked = p.locked := by
  induction pre with
  | nil =>
    intro p s hopen _
    exact ⟨p, s, rfl, hopen, rfl, by simp, by simp, by simp, rfl⟩
  | cons x pre ih =>
    intro p s hopen hok
    have h0 : s.fail s.attempted.length (piano.toMsg x) = none := by
      simpa using hok 0 (by simp)
    obtain ⟨p1, s1, hrun, ho1, hf1, ha1, hw1, ht1, hl1⟩ :=
      ih { p with outputStream := some { s with attempted := s.attempted ++ [piano.toMsg x],
                                                written := s.written ++ [piano.toMsg x] },
                  trace := p.trace ++ [okWrite x] }
        { s with attempted := s.attempted ++ [piano.toMsg x],
                 written := s.written ++ [piano.toMsg x] } rfl
        (by
          intro j hj
          have := hok (j + 1) (by simpa using hj)
          simpa [Nat.add_assoc, Nat.add_comm 1 j] using this)
    refine ⟨p1, s1, ?_, ho1, hf1, ?_, ?_, ?_, hl1⟩
    · rw [List.cons_append, piano.playLoop_cons_ok p s x (pre ++ rest) hopen h0, hrun]
    · simpa using ha1
    · simpa using hw1
    · simpa using ht1

/-- The call on a free mutex, once the loop is known to return: the deferred
unlock runs on the way out and the result of the loop is handed back. -/
theorem piano.PlayNotes_of_loop (p p2 : piano.Piano) (err : Option portmidi.PmError)
    (notes : List music.Note) (bpm : Int) (hfree : p.locked = false)
    (hloop : piano.Piano.playLoop
      { p with locked := true, trace := p.trace ++ [Event.lock] } notes = some (p2, err))
    (hheld : p2.locked = true) :
    p.PlayNotes notes bpm =
      some ({ p2 with locked := false, trace := p2.trace ++ [Event.unlock] }, err) := by
  simp [piano.Piano.PlayNotes, piano.Piano.Lock, piano.Piano.Unlock, hfree, hloop, hheld]

/-- Whatever the device answers, the loop returns, it leaves the mutex as it
found it, and all it adds to the trace are the device writes it attempted. -/
theorem piano.playLoop_returns (notes : List music.Note) :
    ∀ (p : piano.Piano) (s : portmidi.Stream), p.outputStream = some s →
      ∃ (p2 : piano.Piano) (s2 : portmidi.Stream) (err : Option portmidi.PmError)
        (ws : List Event),
        p.playLoop notes = some (p2, err) ∧ p2.outputStream = some s2 ∧
        p2.trace = p.trace ++ ws ∧ (∀ ev ∈ ws, ev.isWrite = true) ∧
        s2.attempted = s.attempted ++ ws.filterMap Event.msg ∧ p2.locked = p.locked := by
  induction notes with
  | nil =>
    intro p s hopen
    exact ⟨p, s, none, [], rfl, hopen, by simp, by simp, by simp, rfl⟩
  | cons x notes ih =>
    intro p s hopen
    cases hres : s.fail s.attempted.length (piano.toMsg x) with
    | none =>
      obtain ⟨p2, s2, err, ws, hrun, ho2, ht2, hw2, ha2, hl2⟩ :=
        ih { p with outputStream := some { s with attempted := s.attempted ++ [piano.toMsg x],
                                                  written := s.written ++ [piano.toMsg x] },
                    trace := p.trace ++ [okWrite x] }
          { s with attempted := s.attempted ++ [piano.toMsg x],
                   written := s.written ++ [piano.toMsg x] } rfl
      refine ⟨p2, s2, err, okWrite x :: ws, ?_, ho2, ?_, ?_, ?_, hl2⟩
      · rw [piano.playLoop_cons_ok p s x notes hopen hres, hrun]
      · simpa using ht2
      · intro ev hev
        rcases List.mem_cons.mp hev with h | h
        · subst h; rfl
        · exact hw2 ev h
      · simpa [okWrite, Event.msg] using ha2
    | some e =>
      refine ⟨_, _, some e, [Event.write (piano.toMsg x) (some e)],
        piano.playLoop_cons_fail p s x notes e hopen hres, rfl, rfl, ?_, ?_, rfl⟩
      · intro ev hev
        rw [List.mem_singleton.mp hev]; rfl
      · simp [Event.msg]

/-- C1: on a free mutex and an open stream, when the device accepts every write
of the call, `PlayNotes` returns no error and the writes it adds to the channel
are exactly the input events mapped one by one to (status, pitch, velocity), in
input order, with status 0x90 for an on event and 0x80 for an off event. -/
theorem PlayNotes_writes_in_order (p : piano.Piano) (s : portmidi.Stream)
    (notes : List music.Note) (bpm : Int)
    (hfree : p.locked = false) (hopen : p.outputStream = some s)
    (hok : ∀ j (hj : j < notes.length),
      s.fail (s.attempted.length + j) (piano.toMsg (notes.get ⟨j, hj⟩)) = none) :
    ∃ (p2 : piano.Piano) (s2 : portmidi.Stream),
      p.PlayNotes notes bpm = some (p2, none) ∧ p2.outputStream = some s2 ∧
      s2.written = s.written ++
        notes.map (fun n => (⟨if n.On then 0x90 else 0x80, n.Pitch, n.Velocity⟩ : portmidi.Msg)) ∧
      s2.attempted = s.attempted ++
        notes.map (fun n => (⟨if n.On then 0x90 else 0x80, n.Pitch, n.Velocity⟩ : portmidi.Msg)) ∧
      (notes = [] → s2.written = s.written ∧ s2.attempted = s.attempted) := by
  obtain ⟨p1, s1, hrun, ho1, _, ha1, hw1, _, hl1⟩ :=
    piano.playLoop_prefix notes []
      { p with locked := true, trace := p.trace ++ [Event.lock] } s hopen hok
  rw [List.append_nil] at hrun
  have hloop : piano.Piano.playLoop
      { p with locked := true, trace := p.trace ++ [Event.lock] } notes = some (p1, none) := by
    rw [hrun]; rfl
  refine ⟨_, s1, piano.PlayNotes_of_loop p p1 none notes bpm hfree hloop hl1, ho1, hw1, ha1, ?_⟩
  intro hnil
  subst hnil
  exact ⟨by simpa using hw1, by simpa using ha1⟩

/-- C1 at the example of the spec: the four events on a device that accepts
everything give the log (0x90,60,100), (0x80,60,100), (0x90,64,100),
(0x80,64,100) and no error. -/
theorem PlayNotes_writes_in_order_witness :
    ∃ (p2 : piano.Piano) (s2 : portmidi.Stream),
      (piano.onStream okStream).PlayNotes fourEvents 120 = some (p2, none) ∧
      p2.outputStream = some s2 ∧
      s2.written = [⟨0x90, 60, 100⟩, ⟨0x80, 60, 100⟩, ⟨0x90, 64, 100⟩, ⟨0x80, 64, 100⟩] ∧
      s2.attempted = [⟨0x90, 60, 100⟩, ⟨0x80, 60, 100⟩, ⟨0x90, 64, 100⟩, ⟨0x80, 64, 100⟩] ∧
      (fourEvents = [] → s2.written = [] ∧ s2.attempted = []) :=
  PlayNotes_writes_in_order (piano.onStream okStream) okStream fourEvents 120 rfl rfl
    (fun _ _ => rfl)

/-- C2: on a free mutex and an open stream, when the write of the event at
index `k` (counted from 0) is the first one the device refuses, `PlayNotes`
returns exactly the error of that write, the writes that succeeded are the
events before `k` in input order, the refused write was attempted once, and
nothing was attempted for the events after `k`. -/
theorem PlayNotes_first_failure (p : piano.Piano) (s : portmidi.Stream)
    (notes : List music.Note) (bpm : Int) (k : Nat) (e : portmidi.PmError)
    (hfree : p.locked = false) (hopen : p.outputStream = some s) (hk : k < notes.length)
    (hok : ∀ j (hj : j < notes.length), j < k →
      s.fail (s.attempted.length + j) (piano.toMsg (notes.get ⟨j, hj⟩)) = none)
    (hfail : s.fail (s.attempted.length + k) (piano.toMsg (notes.get ⟨k, hk⟩)) = some e) :
    ∃ (p2 : piano.Piano) (s2 : portmidi.Stream),
      p.PlayNotes notes bpm = some (p2, some e) ∧ p2.outputStream = some s2 ∧
      s2.written = s.written ++ (notes.take k).map piano.toMsg ∧
      s2.attempted = s.attempted ++ (notes.take (k + 1)).map piano.toMsg := by
  have hsplit : notes = notes.take k ++ notes.get ⟨k, hk⟩ :: notes.drop (k + 1) := by
    rw [List.get_eq_getElem, ← List.drop_eq_getElem_cons hk, List.take_append_drop]
  have hlen : (notes.take k).length = k := by
    rw [List.length_take]; omega
  obtain ⟨p1, s1, hrun, ho1, hf1, ha1, hw1, _, hl1⟩ :=
    piano.playLoop_prefix (notes.take k) (notes.get ⟨k, hk⟩ :: notes.drop (k + 1))
      { p with locked := true, trace := p.trace ++ [Event.lock] } s hopen
      (by
        intro j hj
        have hjk : j < k := by rw [hlen] at hj; exact hj
        have := hok j (by omega) hjk
        simpa [List.getElem_take] using this)
  rw [← hsplit] at hrun
  have hfail1 : s1.fail s1.attempted.length (piano.toMsg (notes.get ⟨k, hk⟩)) = some e := by
    rw [hf1, ha1, List.length_append, List.length_map, hlen]; exact hfail
  have hloop : piano.Piano.playLoop
      { p with locked := true, trace := p.trace ++ [Event.lock] } notes = _ :=
    hrun.trans (piano.playLoop_cons_fail p1 s1 _ _ e ho1 hfail1)
  refine ⟨_, _, piano.PlayNotes_of_loop p _ (some e) notes bpm hfree hloop hl1, rfl, ?_, ?_⟩
  · exact hw1
  · show s1.attempted ++ [piano.toMsg (notes.get ⟨k, hk⟩)] = _
    rw [ha1, List.append_assoc, List.take_succ, List.map_append, List.getElem?_eq_getElem hk]
    rfl

/-- C2 at the example of the spec: the second of the four events is refused;
one write is in the log, two were attempted, and the error of the refused write
is returned. -/
theorem PlayNotes_first_failure_witness :
    ∃ (p2 : piano.Piano) (s2 : portmidi.Stream),
      (piano.onStream (failAt 1)).PlayNotes fourEvents 120 = some (p2, some ⟨7⟩) ∧
      p2.outputStream = some s2 ∧
      s2.written = [⟨0x90, 60, 100⟩] ∧
      s2.attempted = [⟨0x90, 60, 100⟩, ⟨0x80, 60, 100⟩] :=
  PlayNotes_first_failure (piano.onStream (failAt 1)) (failAt 1) fourEvents 120 1 ⟨7⟩ rfl rfl
    (by decide) (by intro j _ hj; interval_cases j; rfl) rfl

/-- C6: on a free mutex and an open stream, for every input and every pattern
of device failures, `PlayNotes` returns, and what it adds to the trace is one
lock, then device writes only, then one unlock: the mutex is taken before the
first write, every write of the call (each one the device saw is in this
stretch) happens while it is held, and it is released exactly once, as the last
event, on the normal and on the early return alike, which leaves it free. -/
theorem PlayNotes_lock_discipline (p : piano.Piano) (s : portmidi.Stream)
    (notes : List music.Note) (bpm : Int)
    (hfree : p.locked = false) (hopen : p.outputStream = some s) :
    ∃ (p2 : piano.Piano) (s2 : portmidi.Stream) (err : Option portmidi.PmError)
      (ws : List Event),
      p.PlayNotes notes bpm = some (p2, err) ∧
      p2.trace = p.trace ++ Event.lock :: (ws ++ [Event.unlock]) ∧
      (∀ ev ∈ ws, ev.isWrite = true) ∧
      p2.outputStream = some s2 ∧
      s2.attempted = s.attempted ++ ws.filterMap Event.msg ∧
      p2.locked = false := by
  obtain ⟨p1, s1, err, ws, hrun, ho1, ht1, hw1, ha1, hl1⟩ :=
    piano.playLoop_returns notes
      { p with locked := true, trace := p.trace ++ [Event.lock] } s hopen
  refine ⟨_, s1, err, ws, piano.PlayNotes_of_loop p p1 err notes bpm hfree hrun hl1,
    ?_, hw1, ho1, ha1, rfl⟩
  show p1.trace ++ [Event.unlock] = _
  rw [ht1]
  simp

/-- C6 on the early return: the second of the four events is refused, and the
trace is lock, the accepted write, the refused write, unlock. -/
theorem PlayNotes_lock_discipline_witness :
    ∃ (p2 : piano.Piano) (s2 : portmidi.Stream) (err : Option portmidi.PmError)
      (ws : List Event),
      (piano.onStream (failAt 1)).PlayNotes fourEvents 120 = some (p2, err) ∧
      p2.trace = [] ++ Event.lock :: (ws ++ [Event.unlock]) ∧
      (∀ ev ∈ ws, ev.isWrite = true) ∧
      p2.outputStream = some s2 ∧
      s2.attempted = [] ++ ws.filterMap Event.msg ∧
      p2.locked = false :=
  PlayNotes_lock_discipline (piano.onStream (failAt 1)) (failAt 1) fourEvents 120 rfl rfl

/-! ## Behaviour of `main.Piano.PlayNote` -/

/-- The run of `PlayNote` on an open stream, whatever the device answers: two
writes are attempted, the note-on and then, after the sleep, the note-off; the
value returned is the answer to the second. -/
theorem Main.PlayNote_run (p : Main.Piano) (s : portmidi.Stream) (note : Main.Note) (bpm : ℚ)
    (hopen : p.outputStream = some s) :
    ∃ (p2 : Main.Piano) (s2 : portmidi.Stream),
      p.PlayNote note bpm =
        some (p2, s.fail (s.attempted.length + 1) (Main.offMsg note)) ∧
      p2.outputStream = some s2 ∧
      p2.trace = p.trace ++
        [Event.write (Main.onMsg note) (s.fail s.attempted.length (Main.onMsg note)),
         Event.sleep (Main.holdDuration note.Duration bpm),
         Event.write (Main.offMsg note) (s.fail (s.attempted.length + 1) (Main.offMsg note))] ∧
      s2.attempted = s.attempted ++ [Main.onMsg note, Main.offMsg note] ∧
      s2.written = s.written ++
        ((if (s.fail s.attempted.length (Main.onMsg note)).isNone then [Main.onMsg note] else []) ++
         (if (s.fail (s.attempted.length + 1) (Main.offMsg note)).isNone then [Main.offMsg note]
          else [])) := by
  cases h1 : s.fail s.attempted.length (Main.onMsg note) <;>
  cases h2 : s.fail (s.attempted.length + 1) (Main.offMsg note) <;>
  simp [Main.onMsg, Main.offMsg] at h1 h2 <;>
  simp [Main.Piano.PlayNote, Main.Piano.writeShort, Main.Piano.Sleep,
    portmidi.Stream.WriteShort, Main.onMsg, Main.offMsg, hopen, h1, h2]

/-! ## Rounding to `float64` -/

/-- Rounding to the nearest integer does not step over an integer above. -/
theorem float64.roundHalfEven_le (y : ℚ) (N : Int) (h : y ≤ N) :
    float64.roundHalfEven y ≤ N := by
  have hfl : ((⌊y⌋ : Int) : ℚ) ≤ y := Int.floor_le y
  have hf : ⌊y⌋ ≤ N := by
    have : ((⌊y⌋ : Int) : ℚ) ≤ N := le_trans hfl h
    exact_mod_cast this
  have hstep : ¬ (y - ⌊y⌋ < 1 / 2) → ⌊y⌋ + 1 ≤ N := by
    intro h1
    have h2 : ((⌊y⌋ : Int) : ℚ) < N := by linarith [not_lt.mp h1]
    have h3 : ⌊y⌋ < N := by exact_mod_cast h2
    omega
  unfold float64.roundHalfEven
  split_ifs with h1 h2 h3
  · exact hf
  · exact hstep h1
  · exact hf
  · exact hstep h1

/-- Rounding to the nearest integer does not step over an integer below. -/
theorem float64.le_roundHalfEven (y : ℚ) (N : Int) (h : (N : ℚ) ≤ y) :
    N ≤ float64.roundHalfEven y := by
  have hf : N ≤ ⌊y⌋ := Int.le_floor.mpr h
  unfold float64.roundHalfEven
  split_ifs <;> omega

/-- A value less than one half away from an integer rounds to it. -/
theorem float64.roundHalfEven_near (y : ℚ) (n : Int) (h1 : (n : ℚ) - 1 / 2 < y)
    (h2 : y < n + 1 / 2) : float64.roundHalfEven y = n := by
  have hfl : ((⌊y⌋ : Int) : ℚ) ≤ y := Int.floor_le y
  have hlt : y < ((⌊y⌋ : Int) : ℚ) + 1 := Int.lt_floor_add_one y
  rcases le_or_lt (n : ℚ) y with hn | hn
  · have hf : ⌊y⌋ = n := by
      rw [Int.floor_eq_iff]; exact ⟨hn, by linarith⟩
    unfold float64.roundHalfEven
    rw [hf, if_pos (by linarith)]
  · have hf : ⌊y⌋ = n - 1 := by
      rw [Int.floor_eq_iff]; push_cast; exact ⟨by linarith, by linarith⟩
    unfold float64.roundHalfEven
    rw [hf]
    push_cast
    rw [if_neg (by linarith), if_pos (by linarith)]
    omega

/-- An integer rounds to itself. -/
theorem float64.roundHalfEven_intCast (n : Int) : float64.roundHalfEven (n : ℚ) = n :=
  float64.roundHalfEven_near _ n (by linarith) (by linarith)

/-- The binade of a positive rational. -/
theorem float64.log_bounds (x : ℚ) (hx : 0 < x) :
    (2 : ℚ) ^ Int.log 2 x ≤ x ∧ x < (2 : ℚ) ^ (Int.log 2 x + 1) := by
  have h1 := Int.zpow_log_le_self (b := 2) (by norm_num) hx
  have h2 := Int.lt_zpow_succ_log_self (b := 2) (by norm_num) x
  simp only [Nat.cast_ofNat] at h1 h2
  exact ⟨h1, h2⟩

/-- The binade of a rational, from the two powers of 2 around it. -/
theorem float64.log_eq (x : ℚ) (e : Int) (hlo : (2 : ℚ) ^ e ≤ x) (hhi : x < (2 : ℚ) ^ (e + 1)) :
    Int.log 2 x = e := by
  have hx : 0 < x := lt_of_lt_of_le (zpow_pos (by norm_num) e) hlo
  have h1 : e ≤ Int.log 2 x := by
    rw [← Int.zpow_le_iff_le_log (by norm_num) hx]
    simpa using hlo
  have h2 : Int.log 2 x < e + 1 := by
    rw [← Int.lt_zpow_iff_log_lt (by norm_num) hx]
    simpa using hhi
  omega

/-- The `float64` nearest to a normal-range `x` in the binade `e`, given the
integer `n` nearest to `x` counted in units in the last place. -/
theorem float64.nearest_eq (x : ℚ) (e n : Int) (hlo : (2 : ℚ) ^ e ≤ x)
    (hhi : x < (2 : ℚ) ^ (e + 1)) (he : -1022 ≤ e)
    (h1 : (n : ℚ) - 1 / 2 < x / 2 ^ (e - 52)) (h2 : x / 2 ^ (e - 52) < (n : ℚ) + 1 / 2)
    (hfin : |(n : ℚ) * 2 ^ (e - 52)| < 2 ^ (1024 : ℕ)) :
    float64.nearest x = some ((n : ℚ) * 2 ^ (e - 52)) := by
  have hx : 0 < x := lt_of_lt_of_le (zpow_pos (by norm_num) e) hlo
  have hu : float64.ulpExp x = e - 52 := by
    unfold float64.ulpExp
    rw [abs_of_pos hx, float64.log_eq x e hlo hhi, max_eq_left he]
  unfold float64.nearest
  rw [hu, float64.roundHalfEven_near _ n h1 h2, if_pos hfin]

/-- Rounding keeps a non-negative value non-negative. -/
theorem float64.nearest_nonneg (x q : ℚ) (hx : 0 ≤ x) (h : float64.nearest x = some q) :
    0 ≤ q := by
  unfold float64.nearest at h
  split_ifs at h
  have hq := Option.some.inj h
  rw [← hq]
  have hr : (0 : Int) ≤ float64.roundHalfEven (x / 2 ^ float64.ulpExp x) :=
    float64.le_roundHalfEven _ 0 (by
      push_cast
      exact div_nonneg hx (le_of_lt (zpow_pos (by norm_num) _)))
  exact mul_nonneg (by exact_mod_cast hr) (le_of_lt (zpow_pos (by norm_num) _))

/-- Zero is a `float64`. -/
theorem float64.nearest_zero : float64.nearest 0 = some 0 := by
  unfold float64.nearest
  have h0 : float64.roundHalfEven ((0 : ℚ) / 2 ^ float64.ulpExp 0) = 0 := by
    rw [zero_div]
    exact_mod_cast float64.roundHalfEven_intCast 0
  rw [h0]
  simp

/-- A value between 0 and `1 - 2^-53`, the largest `float64` below 1, rounds to
a `float64` below 1. -/
theorem float64.nearest_lt_one (y : ℚ) (h0 : 0 ≤ y) (h1 : y ≤ 1 - 1 / 2 ^ (53 : ℕ)) :
    ∃ q, float64.nearest y = some q ∧ 0 ≤ q ∧ q < 1 := by
  rcases eq_or_lt_of_le h0 with hz | hpos
  · rw [← hz]
    exact ⟨0, float64.nearest_zero, le_refl _, by norm_num⟩
  · have hlog : Int.log 2 y < 0 := by
      rw [← Int.lt_zpow_iff_log_lt (by norm_num) hpos]
      have : y < 1 := lt_of_le_of_lt h1 (by norm_num)
      simpa using this
    have hu : float64.ulpExp y ≤ -53 := by
      unfold float64.ulpExp
      rw [abs_of_pos hpos]
      omega
    have hpu : (0 : ℚ) < 2 ^ float64.ulpExp y := zpow_pos (by norm_num) _
    obtain ⟨k, hk⟩ : ∃ k : ℕ, (k : Int) = -53 - float64.ulpExp y :=
      ⟨(-53 - float64.ulpExp y).toNat, Int.toNat_of_nonneg (by omega)⟩
    have hpow : (2 : ℚ) ^ k * 2 ^ float64.ulpExp y = 1 / 2 ^ (53 : ℕ) := by
      rw [← zpow_natCast, hk, ← zpow_add₀ (by norm_num : (2 : ℚ) ≠ 0)]
      have : -53 - float64.ulpExp y + float64.ulpExp y = -53 := by ring
      rw [this]
      norm_num
    have hN : y / 2 ^ float64.ulpExp y ≤ (((2 ^ 53 - 1) * 2 ^ k : Int) : ℚ) := by
      rw [div_le_iff₀ hpu]
      push_cast
      rw [mul_assoc, hpow]
      norm_num at h1 ⊢
      exact h1
    have hr := float64.roundHalfEven_le _ _ hN
    have hr0 : (0 : Int) ≤ float64.roundHalfEven (y / 2 ^ float64.ulpExp y) :=
      float64.le_roundHalfEven _ 0 (by push_cast; exact div_nonneg h0 hpu.le)
    have hq0 : (0 : ℚ) ≤ (float64.roundHalfEven (y / 2 ^ float64.ulpExp y) : ℚ) *
        2 ^ float64.ulpExp y := mul_nonneg (by exact_mod_cast hr0) hpu.le
    have hq1 : (float64.roundHalfEven (y / 2 ^ float64.ulpExp y) : ℚ) *
        2 ^ float64.ulpExp y < 1 := by
      have hle : (float64.roundHalfEven (y / 2 ^ float64.ulpExp y) : ℚ) ≤
          (((2 ^ 53 - 1) * 2 ^ k : Int) : ℚ) := by exact_mod_cast hr
      calc (float64.roundHalfEven (y / 2 ^ float64.ulpExp y) : ℚ) * 2 ^ float64.ulpExp y
          ≤ (((2 ^ 53 - 1) * 2 ^ k : Int) : ℚ) * 2 ^ float64.ulpExp y :=
            mul_le_mul_of_nonneg_right hle hpu.le
        _ = (2 ^ 53 - 1) * (1 / 2 ^ (53 : ℕ)) := by
            push_cast
            rw [mul_assoc, hpow]
            norm_num
        _ < 1 := by norm_num
    refine ⟨_, ?_, hq0, hq1⟩
    unfold float64.nearest
    rw [if_pos]
    rw [abs_of_nonneg hq0]
    exact lt_trans hq1 (by norm_num)

/-- A positive float64 is a whole multiple `n` of its unit in the last place,
with fewer than 54 bits, and with exactly 53 unless it is subnormal. -/
theorem float64.repr_of_isFloat64 (x : ℚ) (hx : 0 < x) (h : float64.isFloat64 x = true) :
    ∃ (n u : Int), x = (n : ℚ) * 2 ^ u ∧ 0 < n ∧ n < 2 ^ 53 ∧ -1074 ≤ u ∧
      (2 ^ 52 ≤ n ∨ u = -1074) := by
  have hfix : float64.nearest x = some x := of_decide_eq_true h
  unfold float64.nearest at hfix
  split_ifs at hfix
  have hval := Option.some.inj hfix
  obtain ⟨hlo, hhi⟩ := float64.log_bounds x hx
  have hpu : (0 : ℚ) < 2 ^ float64.ulpExp x := zpow_pos (by norm_num) _
  have hudef : float64.ulpExp x = max (Int.log 2 x) (-1022) - 52 := by
    unfold float64.ulpExp; rw [abs_of_pos hx]
  refine ⟨float64.roundHalfEven (x / 2 ^ float64.ulpExp x), float64.ulpExp x, hval.symm,
    ?_, ?_, by omega, ?_⟩
  · have : (0 : ℚ) < (float64.roundHalfEven (x / 2 ^ float64.ulpExp x) : ℚ) := by
      by_contra hn
      have hn2 := not_lt.mp hn
      have : (float64.roundHalfEven (x / 2 ^ float64.ulpExp x) : ℚ) *
          2 ^ float64.ulpExp x ≤ 0 := mul_nonpos_of_nonpos_of_nonneg hn2 hpu.le
      linarith
    exact_mod_cast this
  · have hle : (2 : ℚ) ^ (Int.log 2 x + 1) ≤ 2 ^ (float64.ulpExp x + 53) :=
      zpow_le_zpow_right₀ (by norm_num) (by omega)
    have hsplit : (2 : ℚ) ^ (float64.ulpExp x + 53) = 2 ^ (53 : ℕ) * 2 ^ float64.ulpExp x := by
      rw [zpow_add₀ (by norm_num : (2 : ℚ) ≠ 0), mul_comm]; norm_num
    have : (float64.roundHalfEven (x / 2 ^ float64.ulpExp x) : ℚ) * 2 ^ float64.ulpExp x <
        2 ^ (53 : ℕ) * 2 ^ float64.ulpExp x := by
      rw [hval, ← hsplit]; exact lt_of_lt_of_le hhi hle
    have h2 : (float64.roundHalfEven (x / 2 ^ float64.ulpExp x) : ℚ) < 2 ^ (53 : ℕ) :=
      lt_of_mul_lt_mul_right this hpu.le
    exact_mod_cast h2
  · by_cases he : -1022 ≤ Int.log 2 x
    · left
      have hu : float64.ulpExp x = Int.log 2 x - 52 := by omega
      have hsplit : (2 : ℚ) ^ Int.log 2 x = 2 ^ (52 : ℕ) * 2 ^ float64.ulpExp x := by
        rw [hu, ← zpow_natCast, ← zpow_add₀ (by norm_num : (2 : ℚ) ≠ 0)]
        congr 1; push_cast; ring
      have : (2 : ℚ) ^ (52 : ℕ) * 2 ^ float64.ulpExp x ≤
          (float64.roundHalfEven (x / 2 ^ float64.ulpExp x) : ℚ) * 2 ^ float64.ulpExp x := by
        rw [hval, ← hsplit]; exact hlo
      have h2 : (2 : ℚ) ^ (52 : ℕ) ≤ (float64.roundHalfEven (x / 2 ^ float64.ulpExp x) : ℚ) :=
        le_of_mul_le_mul_right this hpu
      exact_mod_cast h2
    · right
      omega

/-- Two float64 values `0 <= d < t` have an exact quotient of at most
`1 - 2^-53`, the largest float64 below 1. -/
theorem float64.quotient_le (d t : ℚ) (hd : 0 ≤ d) (hlt : d < t)
    (hfd : float64.isFloat64 d = true) (hft : float64.isFloat64 t = true) :
    d / t ≤ 1 - 1 / 2 ^ (53 : ℕ) := by
  have ht : 0 < t := lt_of_le_of_lt hd hlt
  rcases eq_or_lt_of_le hd with hz | hpos
  · rw [← hz, zero_div]; norm_num
  · rw [div_le_iff₀ ht]
    obtain ⟨nd, ud, hdr, hnd0, hnd, hud, _⟩ := float64.repr_of_isFloat64 d hpos hfd
    obtain ⟨nt, ut, htr, hnt0, hnt, hut, hnorm⟩ := float64.repr_of_isFloat64 t ht hft
    have hP : (0 : ℚ) < 2 ^ ut := zpow_pos (by norm_num) _
    have hntq : (nt : ℚ) < 2 ^ (53 : ℕ) := by exact_mod_cast hnt
    have hndq : (nd : ℚ) ≤ 2 ^ (53 : ℕ) - 1 := by
      have : nd ≤ 2 ^ 53 - 1 := by omega
      exact_mod_cast this
    rcases le_or_lt ut ud with hle | hgt
    · obtain ⟨k, hk⟩ : ∃ k : ℕ, (k : Int) = ud - ut :=
        ⟨(ud - ut).toNat, Int.toNat_of_nonneg (by omega)⟩
      have hdK : d = ((nd * 2 ^ k : Int) : ℚ) * 2 ^ ut := by
        rw [hdr]
        push_cast
        rw [mul_assoc, ← zpow_natCast, hk, ← zpow_add₀ (by norm_num : (2 : ℚ) ≠ 0)]
        congr 2; ring
      have hKlt : nd * 2 ^ k < nt := by
        have h1 : ((nd * 2 ^ k : Int) : ℚ) * 2 ^ ut < (nt : ℚ) * 2 ^ ut := by
          rw [← hdK, ← htr]; exact hlt
        have h2 : ((nd * 2 ^ k : Int) : ℚ) < (nt : ℚ) := lt_of_mul_lt_mul_right h1 hP.le
        exact_mod_cast h2
      have hKq : ((nd * 2 ^ k : Int) : ℚ) ≤ (nt : ℚ) - 1 := by
        have : nd * 2 ^ k ≤ nt - 1 := by omega
        exact_mod_cast this
      have hfac : ((nd * 2 ^ k : Int) : ℚ) ≤ (1 - 1 / 2 ^ (53 : ℕ)) * (nt : ℚ) := by
        push_cast at hKq ⊢
        norm_num at hntq ⊢
        linarith
      calc d = ((nd * 2 ^ k : Int) : ℚ) * 2 ^ ut := hdK
        _ ≤ (1 - 1 / 2 ^ (53 : ℕ)) * (nt : ℚ) * 2 ^ ut := mul_le_mul_of_nonneg_right hfac hP.le
        _ = (1 - 1 / 2 ^ (53 : ℕ)) * t := by rw [htr, mul_assoc]
    · have hnt52 : (2 : ℚ) ^ (52 : ℕ) ≤ (nt : ℚ) := by
        rcases hnorm with h | h
        · exact_mod_cast h
        · omega
      have hpow : (2 : ℚ) ^ ud ≤ 2 ^ ut / 2 := by
        have h1 : (2 : ℚ) ^ ud ≤ 2 ^ (ut - 1) := zpow_le_zpow_right₀ (by norm_num) (by omega)
        rwa [zpow_sub_one₀ (by norm_num : (2 : ℚ) ≠ 0), ← div_eq_mul_inv] at h1
      have hpud : (0 : ℚ) < 2 ^ ud := zpow_pos (by norm_num) _
      calc d = (nd : ℚ) * 2 ^ ud := hdr
        _ ≤ (2 ^ (53 : ℕ) - 1) * 2 ^ ud := mul_le_mul_of_nonneg_right hndq hpud.le
        _ ≤ (2 ^ (53 : ℕ) - 1) * (2 ^ ut / 2) := mul_le_mul_of_nonneg_left hpow (by norm_num)
        _ = (1 - 1 / 2 ^ (53 : ℕ)) * ((2 : ℚ) ^ (52 : ℕ) * 2 ^ ut) := by ring
        _ ≤ (1 - 1 / 2 ^ (53 : ℕ)) * ((nt : ℚ) * 2 ^ ut) :=
            mul_le_mul_of_nonneg_left (mul_le_mul_of_nonneg_right hnt52 hP.le) (by norm_num)
        _ = (1 - 1 / 2 ^ (53 : ℕ)) * t := by rw [htr]

/-- A rational that is a whole multiple of the unit in the last place of its
normal-range binade is a `float64`. -/
theorem float64.isFloat64_of_binade (x : ℚ) (e n : Int) (hlo : (2 : ℚ) ^ e ≤ x)
    (hhi : x < (2 : ℚ) ^ (e + 1)) (he : -1022 ≤ e) (he2 : e ≤ 1023)
    (hn : x = (n : ℚ) * 2 ^ (e - 52)) : float64.isFloat64 x = true := by
  have hx : 0 < x := lt_of_lt_of_le (zpow_pos (by norm_num) e) hlo
  have hpu : (0 : ℚ) < 2 ^ (e - 52) := zpow_pos (by norm_num) _
  have hdiv : x / 2 ^ (e - 52) = (n : ℚ) := by
    rw [hn, mul_div_assoc, div_self hpu.ne', mul_one]
  have hfin : |(n : ℚ) * 2 ^ (e - 52)| < 2 ^ (1024 : ℕ) := by
    rw [← hn, abs_of_pos hx]
    calc x < (2 : ℚ) ^ (e + 1) := hhi
      _ ≤ (2 : ℚ) ^ (1024 : Int) := zpow_le_zpow_right₀ (by norm_num) (by omega)
      _ = 2 ^ (1024 : ℕ) := by norm_num
  have h := float64.nearest_eq x e n hlo hhi he (by rw [hdiv]; linarith) (by rw [hdiv]; linarith)
    hfin
  unfold float64.isFloat64
  rw [h, ← hn]
  exact decide_eq_true rfl

/-! ## The hold computed by `PlayNote` -/

/-- On a non-negative rational, dropping the fractional part is the floor. -/
theorem time.trunc_eq_floor (x : ℚ) (hx : 0 ≤ x) : time.trunc x = ⌊x⌋ := by
  have hnum : 0 ≤ x.num := Rat.num_nonneg.mpr hx
  rw [Rat.floor_def, time.trunc]
  exact Int.tdiv_eq_ediv hnum (Int.ofNat_nonneg _)

/-- The wrap-around leaves a value of the `int64` range alone. -/
theorem time.wrapInt64_of_range (x : Int) (hlo : time.minInt64 ≤ x) (hhi : x ≤ time.maxInt64) :
    time.wrapInt64 x = x := by
  unfold time.minInt64 at hlo
  unfold time.maxInt64 at hhi
  unfold time.wrapInt64
  omega

/-- The wrap-around never makes a non-negative value larger. -/
theorem time.wrapInt64_le (x : Int) (hx : 0 ≤ x) : time.wrapInt64 x ≤ x := by
  unfold time.wrapInt64
  omega

/-- The `float64` quotient of a non-negative by a positive value is not
negative. -/
theorem float64.div_result_nonneg (d t q : ℚ) (hd : 0 ≤ d) (ht : 0 < t)
    (hq : float64.div d t = some q) : 0 ≤ q := by
  unfold float64.div at hq
  rw [if_neg ht.ne'] at hq
  exact float64.nearest_nonneg _ q (div_nonneg hd ht.le) hq

/-- A whole number of minutes up to 153722867 fits the nanosecond count. -/
theorem Main.holdDuration_of_le (d t q : ℚ) (hq : float64.div d t = some q) (hq0 : 0 ≤ q)
    (hfit : time.trunc q ≤ 153722867) :
    Main.holdDuration d t = time.trunc q * time.Minute := by
  have h0 : 0 ≤ time.trunc q := by
    rw [time.trunc_eq_floor _ hq0]; exact Int.floor_nonneg.mpr hq0
  have hr : time.minInt64 ≤ time.trunc q ∧ time.trunc q ≤ time.maxInt64 := by
    unfold time.minInt64 time.maxInt64; omega
  unfold Main.holdDuration time.DurationOfFloat time.mulDuration
  rw [hq]
  simp only [hr, and_self, if_true]
  apply time.wrapInt64_of_range
  · simp only [time.minInt64, time.Minute]; omega
  · simp only [time.maxInt64, time.Minute]; omega

/-- The sleep never lasts longer than the `float64` quotient, in minutes. -/
theorem Main.pause_holdDuration_le (d t q : ℚ) (hq : float64.div d t = some q) (hq0 : 0 ≤ q) :
    ((time.pause (Main.holdDuration d t) : Int) : ℚ) ≤ q * (time.Minute : ℚ) := by
  have hfl : time.trunc q = ⌊q⌋ := time.trunc_eq_floor _ hq0
  have h0 : 0 ≤ time.trunc q := by
    rw [hfl]; exact Int.floor_nonneg.mpr hq0
  have hM : (0 : ℚ) ≤ (time.Minute : ℚ) := by unfold time.Minute; norm_num
  have hle : ((time.trunc q * time.Minute : Int) : ℚ) ≤ q * (time.Minute : ℚ) := by
    push_cast
    exact mul_le_mul_of_nonneg_right (by rw [hfl]; exact Int.floor_le _) hM
  have hkey : time.pause (Main.holdDuration d t) ≤ time.trunc q * time.Minute := by
    unfold Main.holdDuration time.DurationOfFloat time.mulDuration
    rw [hq]
    by_cases hr : time.minInt64 ≤ time.trunc q ∧ time.trunc q ≤ time.maxInt64
    · simp only [hr, and_self, if_true]
      have hnn : 0 ≤ time.trunc q * time.Minute := by
        unfold time.Minute; omega
      have := time.wrapInt64_le _ hnn
      unfold time.pause
      exact max_le this hnn
    · simp only [hr, if_false]
      have hz : time.wrapInt64 (time.minInt64 * time.Minute) = 0 := by decide
      rw [hz]
      unfold time.pause time.Minute
      simp only [max_self]
      omega
  calc ((time.pause (Main.holdDuration d t) : Int) : ℚ)
      ≤ ((time.trunc q * time.Minute : Int) : ℚ) := by exact_mod_cast hkey
    _ ≤ q * (time.Minute : ℚ) := hle

/-- An exact quotient between 0 and `1 - 2^-53` gets no hold at all. -/
theorem Main.holdDuration_of_small_quotient (d t : ℚ) (ht : t ≠ 0) (h0 : 0 ≤ d / t)
    (h1 : d / t ≤ 1 - 1 / 2 ^ (53 : ℕ)) : Main.holdDuration d t = 0 := by
  obtain ⟨q, hq, hq0, hq1⟩ := float64.nearest_lt_one (d / t) h0 h1
  have hdiv : float64.div d t = some q := by
    unfold float64.div; rw [if_neg ht]; exact hq
  have hz : time.trunc q = 0 := by
    rw [time.trunc_eq_floor _ hq0, Int.floor_eq_zero_iff]
    exact ⟨hq0, hq1⟩
  rw [Main.holdDuration_of_le d t q hdiv hq0 (by rw [hz]; decide), hz, zero_mul]

/-- A `float64` duration shorter than the `float64` tempo gets no hold at all. -/
theorem Main.holdDuration_of_lt (d t : ℚ) (hd : 0 ≤ d) (hlt : d < t)
    (hfd : float64.isFloat64 d = true) (hft : float64.isFloat64 t = true) :
    Main.holdDuration d t = 0 := by
  have ht : 0 < t := lt_of_le_of_lt hd hlt
  exact Main.holdDuration_of_small_quotient d t ht.ne' (div_nonneg hd ht.le)
    (float64.quotient_le d t hd hlt hfd hft)

/-- C3: on an open stream, when the device accepts both writes, `PlayNote`
performs exactly two writes, first (0x90, pitch, velocity) and then, after the
sleep, (0x80, pitch, velocity) with the same pitch and velocity, and returns no
error. -/
theorem PlayNote_on_then_off (p : Main.Piano) (s : portmidi.Stream) (note : Main.Note) (bpm : ℚ)
    (hopen : p.outputStream = some s)
    (hon : s.fail s.attempted.length ⟨0x90, note.Pitch, note.Velocity⟩ = none)
    (hoff : s.fail (s.attempted.length + 1) ⟨0x80, note.Pitch, note.Velocity⟩ = none) :
    ∃ (p2 : Main.Piano) (s2 : portmidi.Stream),
      p.PlayNote note bpm = some (p2, none) ∧ p2.outputStream = some s2 ∧
      p2.trace = p.trace ++
        [Event.write ⟨0x90, note.Pitch, note.Velocity⟩ none,
         Event.sleep (Main.holdDuration note.Duration bpm),
         Event.write ⟨0x80, note.Pitch, note.Velocity⟩ none] ∧
      s2.attempted = s.attempted ++
        [⟨0x90, note.Pitch, note.Velocity⟩, ⟨0x80, note.Pitch, note.Velocity⟩] ∧
      s2.written = s.written ++
        [⟨0x90, note.Pitch, note.Velocity⟩, ⟨0x80, note.Pitch, note.Velocity⟩] := by
  obtain ⟨p2, s2, hrun, ho2, ht2, ha2, hw2⟩ := Main.PlayNote_run p s note bpm hopen
  simp only [Main.onMsg, Main.offMsg, hon, hoff] at hrun ht2 ha2 hw2
  exact ⟨p2, s2, hrun, ho2, ht2, ha2, by simpa using hw2⟩

/-- C3 on the note of pitch 60 and velocity 100, one beat long, at 60 beats
per minute, on a device that accepts everything. -/
theorem PlayNote_on_then_off_witness :
    ∃ (p2 : Main.Piano) (s2 : portmidi.Stream),
      (Main.onStream okStream).PlayNote ⟨60, 100, 1⟩ 60 = some (p2, none) ∧
      p2.outputStream = some s2 ∧
      p2.trace = [] ++
        [Event.write ⟨0x90, 60, 100⟩ none, Event.sleep (Main.holdDuration 1 60),
         Event.write ⟨0x80, 60, 100⟩ none] ∧
      s2.attempted = [] ++ [⟨0x90, 60, 100⟩, ⟨0x80, 60, 100⟩] ∧
      s2.written = [] ++ [⟨0x90, 60, 100⟩, ⟨0x80, 60, 100⟩] :=
  PlayNote_on_then_off (Main.onStream okStream) okStream ⟨60, 100, 1⟩ 60 rfl rfl rfl

/-- C4 as stated fails: the device refuses the note-on (error code 7), and
`PlayNote` still attempts the note-off, which is written; two writes were
attempted, not one, and the call returns no error. -/
theorem PlayNote_off_written_after_failed_on :
    ∃ (p2 : Main.Piano) (s2 : portmidi.Stream),
      (failAt 0).fail 0 ⟨0x90, 60, 100⟩ = some ⟨7⟩ ∧
      (Main.onStream (failAt 0)).PlayNote ⟨60, 100, 1⟩ 60 = some (p2, none) ∧
      p2.outputStream = some s2 ∧
      s2.attempted = [⟨0x90, 60, 100⟩, ⟨0x80, 60, 100⟩] ∧
      s2.attempted ≠ [⟨0x90, 60, 100⟩] ∧
      s2.written = [⟨0x80, 60, 100⟩] := by
  obtain ⟨p2, s2, hrun, ho2, _, ha2, hw2⟩ :=
    Main.PlayNote_run (Main.onStream (failAt 0)) (failAt 0) ⟨60, 100, 1⟩ 60 rfl
  refine ⟨p2, s2, rfl, hrun, ho2, ha2, ?_, hw2⟩
  rw [ha2]
  decide

/-- C4, amended: on an open stream, when the device refuses the note-on,
`PlayNote` goes on: it sleeps the hold and then attempts the note-off
(0x80, pitch, velocity) once; the writes attempted are the refused note-on and
then that note-off, and the value returned is the answer to the note-off. -/
theorem PlayNote_failed_on_still_sends_off (p : Main.Piano) (s : portmidi.Stream)
    (note : Main.Note) (bpm : ℚ) (e : portmidi.PmError)
    (hopen : p.outputStream = some s)
    (hon : s.fail s.attempted.length ⟨0x90, note.Pitch, note.Velocity⟩ = some e) :
    ∃ (p2 : Main.Piano) (s2 : portmidi.Stream),
      p.PlayNote note bpm =
        some (p2, s.fail (s.attempted.length + 1) ⟨0x80, note.Pitch, note.Velocity⟩) ∧
      p2.outputStream = some s2 ∧
      p2.trace = p.trace ++
        [Event.write ⟨0x90, note.Pitch, note.Velocity⟩ (some e),
         Event.sleep (Main.holdDuration note.Duration bpm),
         Event.write ⟨0x80, note.Pitch, note.Velocity⟩
           (s.fail (s.attempted.length + 1) ⟨0x80, note.Pitch, note.Velocity⟩)] ∧
      s2.attempted = s.attempted ++
        [⟨0x90, note.Pitch, note.Velocity⟩, ⟨0x80, note.Pitch, note.Velocity⟩] := by
  obtain ⟨p2, s2, hrun, ho2, ht2, ha2, _⟩ := Main.PlayNote_run p s note bpm hopen
  simp only [Main.onMsg, Main.offMsg, hon] at hrun ht2 ha2
  exact ⟨p2, s2, hrun, ho2, ht2, ha2⟩

/-- C4, amended, on a device that refuses the first write only. -/
theorem PlayNote_failed_on_still_sends_off_witness :
    ∃ (p2 : Main.Piano) (s2 : portmidi.Stream),
      (Main.onStream (failAt 0)).PlayNote ⟨64, 90, 2⟩ 120 = some (p2, none) ∧
      p2.outputStream = some s2 ∧
      p2.trace = [] ++
        [Event.write ⟨0x90, 64, 90⟩ (some ⟨7⟩), Event.sleep (Main.holdDuration 2 120),
         Event.write ⟨0x80, 64, 90⟩ none] ∧
      s2.attempted = [] ++ [⟨0x90, 64, 90⟩, ⟨0x80, 64, 90⟩] :=
  PlayNote_failed_on_still_sends_off (Main.onStream (failAt 0)) (failAt 0) ⟨64, 90, 2⟩ 120 ⟨7⟩
    rfl rfl

/-- C9: on an open stream, the value `PlayNote` returns is the answer of the
device to the note-off write and nothing else, whatever the note-on write did:
the error is non-nil exactly when the note-off write fails. -/
theorem PlayNote_returns_off_result (p : Main.Piano) (s : portmidi.Stream)
    (note : Main.Note) (bpm : ℚ) (hopen : p.outputStream = some s) :
    ∃ (p2 : Main.Piano) (err onResult : Option portmidi.PmError),
      p.PlayNote note bpm = some (p2, err) ∧
      p2.trace = p.trace ++
        [Event.write ⟨0x90, note.Pitch, note.Velocity⟩ onResult,
         Event.sleep (Main.holdDuration note.Duration bpm),
         Event.write ⟨0x80, note.Pitch, note.Velocity⟩ err] ∧
      onResult = s.fail s.attempted.length ⟨0x90, note.Pitch, note.Velocity⟩ ∧
      err = s.fail (s.attempted.length + 1) ⟨0x80, note.Pitch, note.Velocity⟩ ∧
      (err ≠ none ↔
        s.fail (s.attempted.length + 1) ⟨0x80, note.Pitch, note.Velocity⟩ ≠ none) := by
  obtain ⟨p2, _, hrun, _, ht2, _, _⟩ := Main.PlayNote_run p s note bpm hopen
  exact ⟨p2, _, _, hrun, ht2, rfl, rfl, Iff.rfl⟩

/-- C9 where the note-on is refused and the note-off accepted: the refused
note-on is in the trace, and the call returns nil. -/
theorem PlayNote_returns_off_result_witness :
    ∃ (p2 : Main.Piano) (err onResult : Option portmidi.PmError),
      (Main.onStream (failAt 0)).PlayNote ⟨60, 100, 1⟩ 60 = some (p2, err) ∧
      p2.trace = [] ++
        [Event.write ⟨0x90, 60, 100⟩ onResult, Event.sleep (Main.holdDuration 1 60),
         Event.write ⟨0x80, 60, 100⟩ err] ∧
      onResult = some ⟨7⟩ ∧
      err = none ∧
      (err ≠ none ↔ (failAt 0).fail (0 + 1) ⟨0x80, 60, 100⟩ ≠ none) :=
  PlayNote_returns_off_result (Main.onStream (failAt 0)) (failAt 0) ⟨60, 100, 1⟩ 60 rfl

/-- C5 fails on the code: for the note of pitch 60, velocity 100, one beat
long, at 60 beats per minute, `d / t` is one sixtieth of a minute, that is
1000000000 nanoseconds, and `PlayNote` sleeps 0 nanoseconds between the
note-on and the note-off. -/
theorem PlayNote_one_beat_at_60_sleeps_zero :
    ∃ (p2 : Main.Piano),
      (Main.onStream okStream).PlayNote ⟨60, 100, 1⟩ 60 = some (p2, none) ∧
      p2.trace =
        [Event.write ⟨0x90, 60, 100⟩ none, Event.sleep 0, Event.write ⟨0x80, 60, 100⟩ none] ∧
      time.pause (Main.holdDuration 1 60) = 0 ∧
      (1 : ℚ) / 60 * (time.Minute : ℚ) = 1000000000 := by
  obtain ⟨p2, _, hrun, _, ht2, _, _⟩ :=
    Main.PlayNote_run (Main.onStream okStream) okStream ⟨60, 100, 1⟩ 60 rfl
  have hz : Main.holdDuration 1 60 = 0 :=
    Main.holdDuration_of_small_quotient 1 60 (by norm_num) (by norm_num) (by norm_num)
  refine ⟨p2, hrun, ?_, ?_, ?_⟩
  · rw [ht2]
    show [_, Event.sleep (Main.holdDuration 1 60), _] = _
    rw [hz]
    rfl
  · rw [hz]; rfl
  · unfold time.Minute; norm_num

/-- The `float64` quotient of 1 by the `float64` nearest to one tenth is 10:
the exact quotient is just below 10 and rounds up. -/
theorem float64.div_one_tenth : float64.div 1 oneTenth = some 10 := by
  have h := float64.nearest_eq (1 / oneTenth) 3 5629499534213120
    (by unfold oneTenth; norm_num) (by unfold oneTenth; norm_num) (by decide)
    (by unfold oneTenth; norm_num) (by unfold oneTenth; norm_num)
    (by norm_num)
  unfold float64.div
  rw [if_neg (by unfold oneTenth; norm_num), h]
  norm_num

/-- C10 as stated fails: for a note 1 beat long at the `float64` tempo nearest
to one tenth of a beat per minute (both are `float64` values), the exact
quotient is below 10 and the fractional part dropped leaves 9 minutes, while
the `float64` quotient is 10 and `PlayNote` sleeps 10 minutes, which is more
than `d / t` minutes. -/
theorem PlayNote_hold_follows_float_quotient :
    ∃ (p2 : Main.Piano),
      float64.isFloat64 1 = true ∧ float64.isFloat64 oneTenth = true ∧
      (Main.onStream okStream).PlayNote ⟨60, 100, 1⟩ oneTenth = some (p2, none) ∧
      p2.trace =
        [Event.write ⟨0x90, 60, 100⟩ none, Event.sleep 600000000000,
         Event.write ⟨0x80, 60, 100⟩ none] ∧
      time.trunc (1 / oneTenth) * time.Minute = 540000000000 ∧
      Main.holdDuration 1 oneTenth ≠ time.trunc (1 / oneTenth) * time.Minute ∧
      (1 : ℚ) / oneTenth * (time.Minute : ℚ) <
        ((time.pause (Main.holdDuration 1 oneTenth) : Int) : ℚ) := by
  obtain ⟨p2, _, hrun, _, ht2, _, _⟩ :=
    Main.PlayNote_run (Main.onStream okStream) okStream ⟨60, 100, 1⟩ oneTenth rfl
  have hf1 : float64.isFloat64 1 = true :=
    float64.isFloat64_of_binade 1 0 4503599627370496 (by norm_num) (by norm_num) (by decide)
      (by decide) (by norm_num)
  have hft : float64.isFloat64 oneTenth = true :=
    float64.isFloat64_of_binade oneTenth (-4) 7205759403792794
      (by unfold oneTenth; norm_num) (by unfold oneTenth; norm_num) (by decide) (by decide)
      (by unfold oneTenth; norm_num)
  have htr : time.trunc (1 / oneTenth) = 9 := by
    rw [time.trunc_eq_floor _ (by unfold oneTenth; norm_num), Int.floor_eq_iff]
    unfold oneTenth
    constructor <;> norm_num
  have hh : Main.holdDuration 1 oneTenth = 600000000000 := by
    rw [Main.holdDuration_of_le 1 oneTenth 10 float64.div_one_tenth (by norm_num)]
    · have : time.trunc 10 = 10 := by
        rw [time.trunc_eq_floor _ (by norm_num)]; exact Int.floor_intCast 10
      rw [this]; decide
    · have : time.trunc 10 = 10 := by
        rw [time.trunc_eq_floor _ (by norm_num)]; exact Int.floor_intCast 10
      rw [this]; decide
  refine ⟨p2, hf1, hft, hrun, ?_, ?_, ?_, ?_⟩
  · rw [ht2]
    show [_, Event.sleep (Main.holdDuration 1 oneTenth), _] = _
    rw [hh]
    rfl
  · rw [htr]; decide
  · rw [hh, htr]; decide
  · rw [hh]
    unfold oneTenth time.pause time.Minute
    norm_num

/-- The bound of C10, amended, cannot be raised: for a note 153722868 beats
long at 1 beat per minute the quotient is 153722868 minutes, whose nanosecond
count 9223372080000000000 does not fit `int64`; the argument of the sleep wraps
around to a negative duration, and the sleep returns at once. -/
theorem PlayNote_hold_overflows :
    ∃ (p2 : Main.Piano),
      (Main.onStream okStream).PlayNote ⟨60, 100, 153722868⟩ 1 = some (p2, none) ∧
      p2.trace =
        [Event.write ⟨0x90, 60, 100⟩ none, Event.sleep (-9223371993709551616),
         Event.write ⟨0x80, 60, 100⟩ none] ∧
      float64.div 153722868 1 = some 153722868 ∧
      time.trunc 153722868 * time.Minute = 9223372080000000000 ∧
      Main.holdDuration 153722868 1 ≠ time.trunc 153722868 * time.Minute ∧
      time.pause (Main.holdDuration 153722868 1) = 0 := by
  obtain ⟨p2, _, hrun, _, ht2, _, _⟩ :=
    Main.PlayNote_run (Main.onStream okStream) okStream ⟨60, 100, 153722868⟩ 1 rfl
  have hdiv : float64.div 153722868 1 = some 153722868 := by
    have h := float64.nearest_eq (153722868 / 1) 27 5158083521150976
      (by norm_num) (by norm_num) (by decide) (by norm_num) (by norm_num) (by norm_num)
    unfold float64.div
    rw [if_neg one_ne_zero, h]
    norm_num
  have htr : time.trunc 153722868 = 153722868 := by
    rw [time.trunc_eq_floor _ (by norm_num)]
    exact Int.floor_intCast 153722868
  have hconv : time.DurationOfFloat (some 153722868) = 153722868 := by
    simp only [time.DurationOfFloat, htr]
    decide
  have hh : Main.holdDuration 153722868 1 = -9223371993709551616 := by
    unfold Main.holdDuration
    rw [hdiv, hconv]
    decide
  refine ⟨p2, hrun, ?_, hdiv, ?_, ?_, ?_⟩
  · rw [ht2]
    show [_, Event.sleep (Main.holdDuration 153722868 1), _] = _
    rw [hh]
    rfl
  · rw [htr]; decide
  · rw [hh, htr]; decide
  · rw [hh]; decide

/-- C10, amended: on an open stream, for a `float64` duration `d >= 0` and a
`float64` tempo `t > 0`, let `q` be the `float64` quotient `d / t` (the exact
quotient rounded to the nearest `float64`), when it is finite.  The argument of
the sleep between the two writes is `trunc q` minutes whenever `trunc q` is at
most 153722867 (the largest whole number of minutes whose nanosecond count fits
`int64`), where `trunc` drops the fractional part; the hold is 0 whenever
`d < t`, and it never exceeds `q` minutes. -/
theorem PlayNote_hold_whole_minutes (p : Main.Piano) (s : portmidi.Stream)
    (note : Main.Note) (bpm : ℚ) (hopen : p.outputStream = some s)
    (hd : 0 ≤ note.Duration) (ht : 0 < bpm)
    (hfd : float64.isFloat64 note.Duration = true) (hft : float64.isFloat64 bpm = true) :
    ∃ (p2 : Main.Piano) (err onResult : Option portmidi.PmError),
      p.PlayNote note bpm = some (p2, err) ∧
      p2.trace = p.trace ++
        [Event.write ⟨0x90, note.Pitch, note.Velocity⟩ onResult,
         Event.sleep (Main.holdDuration note.Duration bpm),
         Event.write ⟨0x80, note.Pitch, note.Velocity⟩ err] ∧
      (∀ q, float64.div note.Duration bpm = some q →
        0 ≤ q ∧ time.trunc q = ⌊q⌋ ∧
        (time.trunc q ≤ 153722867 →
          Main.holdDuration note.Duration bpm = time.trunc q * time.Minute) ∧
        ((time.pause (Main.holdDuration note.Duration bpm) : Int) : ℚ) ≤
          q * (time.Minute : ℚ)) ∧
      (note.Duration < bpm → Main.holdDuration note.Duration bpm = 0) := by
  obtain ⟨p2, _, hrun, _, ht2, _, _⟩ := Main.PlayNote_run p s note bpm hopen
  refine ⟨p2, _, _, hrun, ht2, ?_, ?_⟩
  · intro q hq
    have hq0 : 0 ≤ q := float64.div_result_nonneg _ _ q hd ht hq
    exact ⟨hq0, time.trunc_eq_floor _ hq0, Main.holdDuration_of_le _ _ q hq hq0,
      Main.pause_holdDuration_le _ _ q hq hq0⟩
  · intro hlt
    exact Main.holdDuration_of_lt _ _ hd hlt hfd hft

/-- The `float64` quotient of 7 by 2 is 7/2. -/
theorem float64.div_seven_two : float64.div 7 2 = some (7 / 2) := by
  have h := float64.nearest_eq (7 / 2) 1 7881299347898368
    (by norm_num) (by norm_num) (by decide) (by norm_num) (by norm_num)
    (by rw [abs_of_pos (by norm_num)]; norm_num)
  unfold float64.div
  rw [if_neg (by norm_num), h]
  norm_num

/-- C10, amended, on a note 7 beats long at 2 beats per minute: the `float64`
quotient is 3.5 and the sleep lasts 3 minutes; and on a note 1 beat long at 60
beats per minute, where the hold is 0. -/
theorem PlayNote_hold_whole_minutes_witness :
    ((0 : ℚ) ≤ 7 ∧ (0 : ℚ) < 2 ∧
      float64.isFloat64 7 = true ∧ float64.isFloat64 2 = true ∧
      float64.div 7 2 = some (7 / 2) ∧ time.trunc (7 / 2) = 3 ∧
      Main.holdDuration 7 2 = 3 * time.Minute) ∧
    ((0 : ℚ) ≤ 1 ∧ (0 : ℚ) < 60 ∧
      float64.isFloat64 1 = true ∧ float64.isFloat64 60 = true ∧
      Main.holdDuration 1 60 = 0) := by
  have hf7 : float64.isFloat64 7 = true :=
    float64.isFloat64_of_binade 7 2 7881299347898368 (by norm_num) (by norm_num) (by decide)
      (by decide) (by norm_num)
  have hf2 : float64.isFloat64 2 = true :=
    float64.isFloat64_of_binade 2 1 4503599627370496 (by norm_num) (by norm_num) (by decide)
      (by decide) (by norm_num)
  have hf1 : float64.isFloat64 1 = true :=
    float64.isFloat64_of_binade 1 0 4503599627370496 (by norm_num) (by norm_num) (by decide)
      (by decide) (by norm_num)
  have hf60 : float64.isFloat64 60 = true :=
    float64.isFloat64_of_binade 60 5 8444249301319680 (by norm_num) (by norm_num) (by decide)
      (by decide) (by norm_num)
  have htr : time.trunc (7 / 2) = 3 := by
    rw [time.trunc_eq_floor _ (by norm_num), Int.floor_eq_iff]
    constructor <;> norm_num
  obtain ⟨_, _, _, _, _, hq, _⟩ :=
    PlayNote_hold_whole_minutes (Main.onStream okStream) okStream ⟨60, 100, 7⟩ 2 rfl
      (by decide) (by decide) hf7 hf2
  obtain ⟨_, _, _, _, _, _, hlt⟩ :=
    PlayNote_hold_whole_minutes (Main.onStream okStream) okStream ⟨60, 100, 1⟩ 60 rfl
      (by decide) (by decide) hf1 hf60
  have h3 := (hq (7 / 2) float64.div_seven_two).2.2.1 (by rw [htr]; decide)
  rw [htr] at h3
  exact ⟨⟨by decide, by decide, hf7, hf2, float64.div_seven_two, htr, h3⟩,
    ⟨by decide, by decide, hf1, hf60, hlt (by norm_num)⟩⟩

/-! ## Device selection in `piano.New` and `main.Piano.Init` -/

/-- What the enumeration loop of `New` leaves in the two device fields. -/
theorem piano.deviceLoop_fields (devices : List portmidi.DeviceInfo) :
    ∀ (i : Nat) (p : piano.Piano),
      (piano.deviceLoop devices i p).OutputDevice =
        selected p.OutputDevice (lastIndexFrom (fun d => d.IsOutputAvailable) devices i) ∧
      (piano.deviceLoop devices i p).InputDevice =
        selected p.InputDevice (lastIndexFrom (fun d => !d.IsOutputAvailable) devices i) := by
  induction devices with
  | nil => intro i p; exact ⟨rfl, rfl⟩
  | cons d rest ih =>
    intro i p
    cases hout : d.IsOutputAvailable
    · have h := ih (i + 1) { p with InputDevice := (i : Int) }
      have hstep : piano.deviceLoop (d :: rest) i p =
          piano.deviceLoop rest (i + 1) { p with InputDevice := (i : Int) } := by
        simp [piano.deviceLoop, hout]
      rw [hstep, h.1, h.2]
      simp only [lastIndexFrom, hout]
      refine ⟨?_, ?_⟩
      · cases lastIndexFrom (fun d => d.IsOutputAvailable) rest (i + 1) <;> simp [selected]
      · cases lastIndexFrom (fun d => !d.IsOutputAvailable) rest (i + 1) <;> simp [selected]
    · have h := ih (i + 1) { p with OutputDevice := (i : Int) }
      have hstep : piano.deviceLoop (d :: rest) i p =
          piano.deviceLoop rest (i + 1) { p with OutputDevice := (i : Int) } := by
        simp [piano.deviceLoop, hout]
      rw [hstep, h.1, h.2]
      simp only [lastIndexFrom, hout]
      refine ⟨?_, ?_⟩
      · cases lastIndexFrom (fun d => d.IsOutputAvailable) rest (i + 1) <;> simp [selected]
      · cases lastIndexFrom (fun d => !d.IsOutputAvailable) rest (i + 1) <;> simp [selected]

/-- What the enumeration loop of `Init` leaves in the two device fields. -/
theorem Main.Init_loop_fields (devices : List portmidi.DeviceInfo) :
    ∀ (i : Nat) (p : Main.Piano),
      (Main.deviceLoop devices i p).OutputDevice =
        selected p.OutputDevice (lastIndexFrom (fun d => d.IsOutputAvailable) devices i) ∧
      (Main.deviceLoop devices i p).InputDevice =
        selected p.InputDevice (lastIndexFrom (fun d => !d.IsOutputAvailable) devices i) := by
  induction devices with
  | nil => intro i p; exact ⟨rfl, rfl⟩
  | cons d rest ih =>
    intro i p
    cases hout : d.IsOutputAvailable
    · have h := ih (i + 1) { p with InputDevice := (i : Int) }
      have hstep : Main.deviceLoop (d :: rest) i p =
          Main.deviceLoop rest (i + 1) { p with InputDevice := (i : Int) } := by
        simp [Main.deviceLoop, hout]
      rw [hstep, h.1, h.2]
      simp only [lastIndexFrom, hout]
      refine ⟨?_, ?_⟩
      · cases lastIndexFrom (fun d => d.IsOutputAvailable) rest (i + 1) <;> simp [selected]
      · cases lastIndexFrom (fun d => !d.IsOutputAvailable) rest (i + 1) <;> simp [selected]
    · have h := ih (i + 1) { p with OutputDevice := (i : Int) }
      have hstep : Main.deviceLoop (d :: rest) i p =
          Main.deviceLoop rest (i + 1) { p with OutputDevice := (i : Int) } := by
        simp [Main.deviceLoop, hout]
      rw [hstep, h.1, h.2]
      simp only [lastIndexFrom, hout]
      refine ⟨?_, ?_⟩
      · cases lastIndexFrom (fun d => d.IsOutputAvailable) rest (i + 1) <;> simp [selected]
      · cases lastIndexFrom (fun d => !d.IsOutputAvailable) rest (i + 1) <;> simp [selected]

/-- Two tests that agree on every element of a list find the same last index. -/
theorem lastIndexFrom_congr {α : Type} (f g : α → Bool) (l : List α)
    (h : ∀ x ∈ l, f x = g x) : ∀ i, lastIndexFrom f l i = lastIndexFrom g l i := by
  induction l with
  | nil => intro i; rfl
  | cons x rest ih =>
    intro i
    simp only [lastIndexFrom]
    rw [ih (fun y hy => h y (List.mem_cons_of_mem _ hy)) (i + 1), h x (List.mem_cons_self _ _)]

/-- Once the driver is up, the device fields `New` returns are the ones it had
after the enumeration and the port override; opening the streams leaves them. -/
theorem piano.New_fields (drv : portmidi.Driver) (ports : List Int)
    (hinit : drv.initResult = none) :
    (piano.New drv ports).1.InputDevice =
      (piano.applyPorts (piano.deviceLoop drv.devices 0 piano.Piano.zero) ports).InputDevice ∧
    (piano.New drv ports).1.OutputDevice =
      (piano.applyPorts (piano.deviceLoop drv.devices 0 piano.Piano.zero) ports).OutputDevice := by
  unfold piano.New
  rw [hinit]
  dsimp only
  split <;> exact ⟨rfl, rfl⟩

/-- Once the driver is up, the device fields `Init` leaves are the ones it had
after the enumeration and the port override; opening the streams leaves them. -/
theorem Main.Init_fields (p : Main.Piano) (drv : portmidi.Driver) (ports : List Int)
    (hinit : drv.initResult = none) :
    (p.Init drv ports).1.InputDevice =
      (Main.applyPorts (Main.deviceLoop drv.devices 0 p) ports).InputDevice ∧
    (p.Init drv ports).1.OutputDevice =
      (Main.applyPorts (Main.deviceLoop drv.devices 0 p) ports).OutputDevice := by
  unfold Main.Piano.Init
  rw [hinit]
  dsimp only
  split <;> exact ⟨rfl, rfl⟩

/-- With any number of ports other than two the override does nothing. -/
theorem piano.applyPorts_of_length_ne (p : piano.Piano) (ports : List Int)
    (h : ports.length ≠ 2) : piano.applyPorts p ports = p := by
  match ports, h with
  | [], _ => rfl
  | [_], _ => rfl
  | [_, _], h => exact absurd rfl h
  | _ :: _ :: _ :: _, _ => rfl

/-- With any number of ports other than two the override does nothing. -/
theorem Main.Init_ports_of_length_ne (p : Main.Piano) (ports : List Int)
    (h : ports.length ≠ 2) : Main.applyPorts p ports = p := by
  match ports, h with
  | [], _ => rfl
  | [_], _ => rfl
  | [_, _], h => exact absurd rfl h
  | _ :: _ :: _ :: _, _ => rfl

/-- When `lastIndexFrom` finds nothing, no element of the list passes the test. -/
theorem lastIndexFrom_none {α : Type} (f : α → Bool) (l : List α) :
    ∀ i, lastIndexFrom f l i = none → ∀ x ∈ l, f x = false := by
  induction l with
  | nil => intro i _ x hx; cases hx
  | cons y rest ih =>
    intro i h x hx
    simp only [lastIndexFrom] at h
    cases hrest : lastIndexFrom f rest (i + 1) with
    | some j => rw [hrest] at h; cases h
    | none =>
      rw [hrest] at h
      rcases List.mem_cons.mp hx with hxy | hxr
      · subst hxy
        cases hfx : f x
        · rfl
        · rw [hfx] at h; simp at h
      · exact ih (i + 1) hrest x hxr

/-- What `lastIndexFrom` finds is the position of an element that passes the
test, and no later element passes it. -/
theorem lastIndexFrom_some {α : Type} (f : α → Bool) (l : List α) :
    ∀ i j, lastIndexFrom f l i = some j →
      ∃ k, j = i + k ∧ ∃ (hk : k < l.length), f (l.get ⟨k, hk⟩) = true ∧
        ∀ m (hm : m < l.length), k < m → f (l.get ⟨m, hm⟩) = false := by
  induction l with
  | nil => intro i j h; cases h
  | cons y rest ih =>
    intro i j h
    simp only [lastIndexFrom] at h
    cases hrest : lastIndexFrom f rest (i + 1) with
    | some j1 =>
      rw [hrest] at h
      have hj : j1 = j := by simpa using h
      subst hj
      obtain ⟨k, hjk, hk, hfk, hlater⟩ := ih (i + 1) j1 hrest
      refine ⟨k + 1, by omega, by simpa using hk, by simpa using hfk, ?_⟩
      intro m hm hkm
      obtain ⟨m1, rfl⟩ : ∃ m1, m = m1 + 1 := ⟨m - 1, by omega⟩
      have := hlater m1 (by simpa using hm) (by omega)
      simpa using this
    | none =>
      rw [hrest] at h
      cases hfy : f y
      · rw [hfy] at h; simp at h
      · rw [hfy] at h
        have hj : i = j := by simpa using h
        refine ⟨0, by omega, by simp, by simpa using hfy, ?_⟩
        intro m hm hkm
        obtain ⟨m1, rfl⟩ : ∃ m1, m = m1 + 1 := ⟨m - 1, by omega⟩
        have hmem : rest.get ⟨m1, by simpa using hm⟩ ∈ rest := List.get_mem _ _ _
        simpa using lastIndexFrom_none f rest (i + 1) hrest _ hmem

/-- C7 as stated fails: of the two devices the second is flagged for input and
for output, so the last input-capable device has index 1, while `New` and
`Init`, which read the output flag only, select input device 0. -/
theorem default_input_is_not_last_input_capable :
    lastIndex (fun d => d.IsInputAvailable) twoWayDevices = some 1 ∧
    (piano.New (driverWith twoWayDevices) []).1.InputDevice = 0 ∧
    (Main.Piano.zero.Init (driverWith twoWayDevices) []).1.InputDevice = 0 ∧
    (piano.New (driverWith twoWayDevices) []).1.OutputDevice = 1 ∧
    (Main.Piano.zero.Init (driverWith twoWayDevices) []).1.OutputDevice = 1 := by
  decide

/-- C7, amended: once the driver is up and no ports are passed, the output
device selected by `New` and by `Init` is the index of the last output-capable
device of the list, and the input device is the index of the last device that
is not output-capable (the input flag is never read); a field for which the
list has no such device keeps its value (0 in `New`).  Hence, when every device
has exactly one of the two flags, the input device is the index of the last
input-capable device. -/
theorem default_device_selection (drv : portmidi.Driver) (p : Main.Piano)
    (hinit : drv.initResult = none) :
    (piano.New drv []).1.OutputDevice =
      selected 0 (lastIndex (fun d => d.IsOutputAvailable) drv.devices) ∧
    (piano.New drv []).1.InputDevice =
      selected 0 (lastIndex (fun d => !d.IsOutputAvailable) drv.devices) ∧
    (p.Init drv []).1.OutputDevice =
      selected p.OutputDevice (lastIndex (fun d => d.IsOutputAvailable) drv.devices) ∧
    (p.Init drv []).1.InputDevice =
      selected p.InputDevice (lastIndex (fun d => !d.IsOutputAvailable) drv.devices) ∧
    ((∀ d ∈ drv.devices, d.IsInputAvailable = !d.IsOutputAvailable) →
      (piano.New drv []).1.InputDevice =
        selected 0 (lastIndex (fun d => d.IsInputAvailable) drv.devices) ∧
      (p.Init drv []).1.InputDevice =
        selected p.InputDevice (lastIndex (fun d => d.IsInputAvailable) drv.devices)) := by
  have hN := piano.New_fields drv [] hinit
  have hI := Main.Init_fields p drv [] hinit
  have hNl := piano.deviceLoop_fields drv.devices 0 piano.Piano.zero
  have hIl := Main.Init_loop_fields drv.devices 0 p
  have hNo : (piano.New drv []).1.OutputDevice =
      selected 0 (lastIndex (fun d => d.IsOutputAvailable) drv.devices) := by
    rw [hN.2]; exact hNl.1
  have hNi : (piano.New drv []).1.InputDevice =
      selected 0 (lastIndex (fun d => !d.IsOutputAvailable) drv.devices) := by
    rw [hN.1]; exact hNl.2
  have hIo : (p.Init drv []).1.OutputDevice =
      selected p.OutputDevice (lastIndex (fun d => d.IsOutputAvailable) drv.devices) := by
    rw [hI.2]; exact hIl.1
  have hIi : (p.Init drv []).1.InputDevice =
      selected p.InputDevice (lastIndex (fun d => !d.IsOutputAvailable) drv.devices) := by
    rw [hI.1]; exact hIl.2
  refine ⟨hNo, hNi, hIo, hIi, ?_⟩
  intro hexcl
  have hsame : lastIndex (fun d => d.IsInputAvailable) drv.devices =
      lastIndex (fun d => !d.IsOutputAvailable) drv.devices :=
    lastIndexFrom_congr _ _ drv.devices hexcl 0
  rw [hsame]
  exact ⟨hNi, hIi⟩

/-- C7, amended, on three devices listed as input, output, input: output
device 1 and input device 2 are selected. -/
theorem default_device_selection_witness :
    (piano.New (driverWith threeDevices) []).1.OutputDevice = 1 ∧
    (piano.New (driverWith threeDevices) []).1.InputDevice = 2 ∧
    (Main.Piano.zero.Init (driverWith threeDevices) []).1.OutputDevice = 1 ∧
    (Main.Piano.zero.Init (driverWith threeDevices) []).1.InputDevice = 2 ∧
    ((∀ d ∈ threeDevices, d.IsInputAvailable = !d.IsOutputAvailable) →
      (piano.New (driverWith threeDevices) []).1.InputDevice = 2 ∧
      (Main.Piano.zero.Init (driverWith threeDevices) []).1.InputDevice = 2) :=
  default_device_selection (driverWith threeDevices) Main.Piano.zero rfl

/-- C8: once the driver is up, with exactly two ports `New` and `Init` select
input device `ports[0]` and output device `ports[1]`, whatever the enumeration
found; with any other number of ports the values are ignored and both fields
keep what the enumeration chose. -/
theorem explicit_ports_override (drv : portmidi.Driver) (p : Main.Piano) (ports : List Int)
    (hinit : drv.initResult = none) :
    (∀ a b, ports = [a, b] →
      (piano.New drv ports).1.InputDevice = a ∧ (piano.New drv ports).1.OutputDevice = b ∧
      (p.Init drv ports).1.InputDevice = a ∧ (p.Init drv ports).1.OutputDevice = b) ∧
    (ports.length ≠ 2 →
      (piano.New drv ports).1.InputDevice =
        (piano.deviceLoop drv.devices 0 piano.Piano.zero).InputDevice ∧
      (piano.New drv ports).1.OutputDevice =
        (piano.deviceLoop drv.devices 0 piano.Piano.zero).OutputDevice ∧
      (p.Init drv ports).1.InputDevice = (Main.deviceLoop drv.devices 0 p).InputDevice ∧
      (p.Init drv ports).1.OutputDevice = (Main.deviceLoop drv.devices 0 p).OutputDevice) := by
  have hN := piano.New_fields drv ports hinit
  have hI := Main.Init_fields p drv ports hinit
  refine ⟨?_, ?_⟩
  · intro a b hab
    subst hab
    exact ⟨hN.1, hN.2, hI.1, hI.2⟩
  · intro hlen
    rw [piano.applyPorts_of_length_ne _ _ hlen] at hN
    rw [Main.Init_ports_of_length_ne _ _ hlen] at hI
    exact ⟨hN.1, hN.2, hI.1, hI.2⟩

/-- C8 on three devices with the ports 5 and 9: input device 5 and output
device 9 are selected, not the devices 2 and 1 of the enumeration. -/
theorem explicit_ports_override_witness :
    (piano.New (driverWith threeDevices) [5, 9]).1.InputDevice = 5 ∧
    (piano.New (driverWith threeDevices) [5, 9]).1.OutputDevice = 9 ∧
    (Main.Piano.zero.Init (driverWith threeDevices) [5, 9]).1.InputDevice = 5 ∧
    (Main.Piano.zero.Init (driverWith threeDevices) [5, 9]).1.OutputDevice = 9 :=
  (explicit_ports_override (driverWith threeDevices) Main.Piano.zero [5, 9] rfl).1 5 9 rfl
